import Mathlib

/-!
Shallow embedding of `src/EventSystem/src/Event.h` (namespace `Events`).

The header defines a polymorphic wrapper hierarchy
(`GlobalFunctionWrapper`, `RegularMemberFunctionWrapper`,
`ConstMemberFunctionWrapper`, all below `FunctionWrapperBase`) and a
templated `Event` class owning
`std::vector<std::unique_ptr<FunctionWrapperBase<void, Args...>>> boundFunctions`.

Modelling choices:
- Function pointers and member-function pointers are opaque identities,
  modelled as `Nat`.  Pointer equality is `Nat` equality.
- A receiver object (`CallerType&`) is identified by its memory address;
  a concrete receiver instance (`Obj`) carries its address and a value
  payload `fields`, so that identity-vs-value questions can be stated.
  A wrapper stores only the address, mirroring the stored reference
  `CallerType& caller`.
- The dynamic type of a stored wrapper is the closed inductive `Wrapper`;
  `dynamic_cast<K*>` is a partial projection returning `Option` of the
  payload of kind `K`.
- The behaviour of the underlying C++ functions is an environment
  (`Semantics`) mapping each function identity (plus receiver address for
  member functions) to a state transformer `α → σ → σ` over an abstract
  program state `σ`, where `α` is the event's argument tuple.  Callbacks
  are state transformers on `σ` only, which expresses the side condition
  that no callback re-enters the event during dispatch (the source leaves
  such re-entry undefined).
- The removal loop `for (int i = boundFunctions.size() - 1; i >= 0; --i)`
  is modelled with its exact index arithmetic: `size()` is an unsigned
  64-bit value, `size() - 1` wraps modulo `2 ^ 64`, and the initialiser
  converts that value to a signed 32-bit `int` (modular conversion).
-/

namespace Events

/-- A receiver object instance: its memory address (identity) and its field
values.  Mirrors an object a `CallerType&` can refer to; the address models
`&obj` and `fields` models the object's value state. -/
structure Obj where
  addr : Nat
  fields : Nat
deriving DecidableEq

/-- The dynamic type of one stored `FunctionWrapperBase<void, Args...>`:
a `GlobalFunctionWrapper` stores a free-function pointer; the member
wrappers store a member-function pointer and the stored reference
`CallerType& caller`, modelled by the receiver's address. -/
inductive Wrapper where
  | global (funcPtr : Nat)
  | regularMember (funcPtr : Nat) (callerAddr : Nat)
  | constMember (funcPtr : Nat) (callerAddr : Nat)
deriving DecidableEq

/-- Observable identity of one callback execution, used to trace which
callback ran (kind, function pointer, receiver address). -/
inductive CallId where
  | global (funcPtr : Nat)
  | member (funcPtr : Nat) (callerAddr : Nat)
  | constMember (funcPtr : Nat) (callerAddr : Nat)
deriving DecidableEq

/-- The call identity of a stored wrapper. -/
def Wrapper.callId : Wrapper → CallId
  | .global f => .global f
  | .regularMember f c => .member f c
  | .constMember f c => .constMember f c

/-- Meaning of the underlying C++ functions: for each function identity
(and receiver address, for member functions), the state transformer the
call performs.  `α` is the event's argument tuple, `σ` the program state. -/
structure Semantics (α σ : Type) where
  globalImpl : Nat → α → σ → σ
  memberImpl : Nat → Nat → α → σ → σ
  constMemberImpl : Nat → Nat → α → σ → σ

/-- Executing one stored wrapper: `GlobalFunctionWrapper::operator()` calls
`funcPtr(args...)` (Event.h lines 40-43); `MemberFunctionWrapper::operator()`
calls `(caller.*funcPtr)(args...)` (lines 69-74). -/
def invokeWrapper {α σ : Type} (env : Semantics α σ) : Wrapper → α → σ → σ
  | .global f, a, s => env.globalImpl f a s
  | .regularMember f c, a, s => env.memberImpl f c a s
  | .constMember f c, a, s => env.constMemberImpl f c a s

/-- `FunctionWrapper::IsFunction` (Event.h lines 26-29): pointer equality of
the stored function pointer with the candidate.  `GlobalFunctionWrapper`'s
`operator==` against a raw function pointer (lines 45-48) has the same body. -/
def IsFunction (storedFuncPtr candidate : Nat) : Bool :=
  storedFuncPtr == candidate

/-- `MemberFunctionWrapper::IsCaller` (Event.h lines 76-79): compares the
address of the stored receiver reference with the address of the candidate
(`&caller == &possibleCaller`). -/
def IsCaller (storedCallerAddr : Nat) (possibleCaller : Obj) : Bool :=
  storedCallerAddr == possibleCaller.addr

/-- Modelled from the spec: `IsFunctionFromCaller` is invoked by the member
`Event::Unbind` overloads (Event.h lines 208 and 219) but is declared by no
class under `src/` (the wrapper hierarchy declares `IsFunction` and
`IsCaller` only); its definition lives in the repository's other,
near-duplicate implementation.  Per spec section 4.1,
`matches(function-entity, receiver)` is true iff the stored method entity
equals the argument by identity AND the stored receiver reference has the
same identity (same object) as the argument. -/
def IsFunctionFromCaller (storedFuncPtr storedCallerAddr : Nat)
    (funcPtr : Nat) (caller : Obj) : Bool :=
  IsFunction storedFuncPtr funcPtr && IsCaller storedCallerAddr caller

/-- The `Event` class: its only data member is the ordered vector
`boundFunctions` (Event.h line 118). -/
structure Event where
  boundFunctions : List Wrapper
deriving DecidableEq

/-- The range-for loop of `Event::operator()` (Event.h lines 143-151),
threading the event through so that the frame property "dispatch leaves the
registration vector untouched" is a statement, not a definition.  Each
iteration dereferences one stored wrapper and calls it. -/
def callLoop {α σ : Type} (env : Semantics α σ) (a : α) :
    List Wrapper → Event × σ → Event × σ
  | [], es => es
  | w :: rest, es => callLoop env a rest (es.1, invokeWrapper env w a es.2)

/-- `Event::operator()` (Event.h lines 143-151): synchronously executes every
stored wrapper in vector order, forwarding the same argument tuple to each;
returns the event together with the final program state. -/
def Event.call {α σ : Type} (e : Event) (env : Semantics α σ) (a : α) (s : σ) :
    Event × σ :=
  callLoop env a e.boundFunctions (e, s)

/-- The program state produced by one `Event::operator()` call. -/
def Event.invoke {α σ : Type} (e : Event) (env : Semantics α σ) (a : α) (s : σ) : σ :=
  (e.call env a s).2

/-- A logging environment: every call appends its call identity and the
argument value it received to a trace.  Used to observe which callbacks a
dispatch executes, in which order, with which arguments. -/
def logEnv (α : Type) : Semantics α (List (CallId × α)) where
  globalImpl := fun f a s => s ++ [(CallId.global f, a)]
  memberImpl := fun f c a s => s ++ [(CallId.member f c, a)]
  constMemberImpl := fun f c a s => s ++ [(CallId.constMember f c, a)]

/-- `Event::Bind(void(*funcPtr)(Args...))` (Event.h lines 185-188):
`emplace_back` of a new `GlobalFunctionWrapper`. -/
def Event.BindGlobal (e : Event) (funcPtr : Nat) : Event :=
  ⟨e.boundFunctions ++ [Wrapper.global funcPtr]⟩

/-- `Event::Bind(void (CallerType::* funcPtr)(Args...), CallerType& caller)`
(Event.h lines 158-162): `emplace_back` of a new
`RegularMemberFunctionWrapper` storing the member pointer and the receiver
reference. -/
def Event.BindMember (e : Event) (funcPtr : Nat) (caller : Obj) : Event :=
  ⟨e.boundFunctions ++ [Wrapper.regularMember funcPtr caller.addr]⟩

/-- `Event::Bind` for const member functions (Event.h lines 176-180):
`emplace_back` of a new `ConstMemberFunctionWrapper`. -/
def Event.BindConstMember (e : Event) (funcPtr : Nat) (caller : Obj) : Event :=
  ⟨e.boundFunctions ++ [Wrapper.constMember funcPtr caller.addr]⟩

/-- Binding one wrapper through the `Bind` overload matching its kind. -/
def Event.bind (e : Event) : Wrapper → Event
  | .global f => e.BindGlobal f
  | .regularMember f c => e.BindMember f ⟨c, 0⟩
  | .constMember f c => e.BindConstMember f ⟨c, 0⟩

/-- Binding a sequence of wrappers in order. -/
def bindAll (e : Event) (ws : List Wrapper) : Event :=
  ws.foldl Event.bind e

/-- `dynamic_cast<GlobalFunctionWrapper<void, Args...>*>`: succeeds exactly
on wrappers whose dynamic type is `GlobalFunctionWrapper`, yielding the
stored function pointer. -/
def dynamicCastGlobal : Wrapper → Option Nat
  | .global f => some f
  | _ => none

/-- `dynamic_cast<RegularMemberFunctionWrapper<CallerType, void, Args...>*>`:
succeeds exactly on mutable member wrappers, yielding the stored member
pointer and receiver address. -/
def dynamicCastRegularMember : Wrapper → Option (Nat × Nat)
  | .regularMember f c => some (f, c)
  | _ => none

/-- `dynamic_cast<ConstMemberFunctionWrapper<CallerType, void, Args...>*>`:
succeeds exactly on const member wrappers, yielding the stored member
pointer and receiver address. -/
def dynamicCastConstMember : Wrapper → Option (Nat × Nat)
  | .constMember f c => some (f, c)
  | _ => none

/-- One iteration of the removal loop body of `Event::UnbindFunction`
(Event.h lines 126-134): read `boundFunctions[i]`, attempt the
`dynamic_cast`; if it succeeds and `ShouldRemove` holds, erase index `i`. -/
def stepRemove {β : Type} (cast : Wrapper → Option β) (shouldRemove : β → Bool)
    (l : List Wrapper) (i : Nat) : List Wrapper :=
  match l[i]? with
  | none => l
  | some w =>
    match cast w with
    | none => l
    | some v => if shouldRemove v then l.eraseIdx i else l

/-- The removal loop running indices `i, i-1, ..., 0` (the body of
`Event::UnbindFunction` after a non-negative starting index). -/
def removeFrom {β : Type} (cast : Wrapper → Option β) (shouldRemove : β → Bool)
    (l : List Wrapper) : Nat → List Wrapper
  | 0 => stepRemove cast shouldRemove l 0
  | i + 1 => removeFrom cast shouldRemove (stepRemove cast shouldRemove l (i + 1)) i

/-- Conversion of an unsigned 64-bit value (reduced modulo `2 ^ 32`) to a
signed 32-bit `int`, as performed by `int i = boundFunctions.size() - 1;`. -/
def int32ofNat (u : Nat) : Int :=
  let r := u % 4294967296
  if r < 2147483648 then (r : Int) else (r : Int) - 4294967296

/-- The starting index of the removal loop: `boundFunctions.size() - 1`
computed in unsigned 64-bit arithmetic (wrapping at zero), then converted
to a signed 32-bit `int`. -/
@[irreducible] def startIndex (size : Nat) : Int :=
  int32ofNat ((size + 18446744073709551615) % 18446744073709551616)

/-- `Event::UnbindFunction` (Event.h lines 124-135): the backward index scan
`for (int i = boundFunctions.size() - 1; i >= 0; --i)` erasing each element
whose `dynamic_cast` to the requested kind succeeds and whose
`ShouldRemove` condition holds.  When the starting index is negative the
loop body never runs. -/
def UnbindFunction {β : Type} (cast : Wrapper → Option β) (shouldRemove : β → Bool)
    (l : List Wrapper) : List Wrapper :=
  if startIndex l.length < 0 then l
  else removeFrom cast shouldRemove l (startIndex l.length).toNat

/-- `Event::Unbind(void(*funcPtr)(Args...))` (Event.h lines 193-198):
`UnbindFunction` over `GlobalFunctionWrapper`, removing wrappers whose
stored pointer equals `funcPtr` (`(*v) == funcPtr`). -/
def Event.UnbindGlobal (e : Event) (funcPtr : Nat) : Event :=
  ⟨UnbindFunction dynamicCastGlobal (fun f => IsFunction f funcPtr) e.boundFunctions⟩

/-- Modelled from the spec: the mutable-member `Event::Unbind` overload
(Event.h lines 203-209) as intended.  As written in `src/` the overload is
ill-formed when instantiated: its `dynamic_cast` target
`MemberFunctionWrapper<CallerType, void, Args...>` misaligns the template
parameter list `<Signature, CallerType, ReturnType, Args...>` of the class
declared in the same header, and the lambda calls the undeclared
`IsFunctionFromCaller`.  Per spec section 4.2 the overload removes every
currently-registered method callback of the matching mutable kind whose
identity matches the (method pointer, receiver) pair. -/
def Event.UnbindMember (e : Event) (funcPtr : Nat) (caller : Obj) : Event :=
  ⟨UnbindFunction dynamicCastRegularMember
    (fun fc => IsFunctionFromCaller fc.1 fc.2 funcPtr caller) e.boundFunctions⟩

/-- The const-member `Event::Unbind` overload (Event.h lines 214-220):
`UnbindFunction` over `ConstMemberFunctionWrapper` with the
(spec-modelled) `IsFunctionFromCaller` condition. -/
def Event.UnbindConstMember (e : Event) (funcPtr : Nat) (caller : Obj) : Event :=
  ⟨UnbindFunction dynamicCastConstMember
    (fun fc => IsFunctionFromCaller fc.1 fc.2 funcPtr caller) e.boundFunctions⟩

/-- `Event::UnbindAll` (Event.h lines 225-228): `boundFunctions.clear()`. -/
def Event.UnbindAll (_e : Event) : Event :=
  ⟨[]⟩

/-- The effect of `Event::~Event` (Event.h lines 138-141) on the
registration state: the destructor body is a call to `UnbindAll`. -/
def Event.destructor (e : Event) : Event :=
  e.UnbindAll

/-- The combined removal test the loop body applies to a stored wrapper:
the `dynamic_cast` succeeds and `ShouldRemove` holds on its payload. -/
def matchesRemoval {β : Type} (cast : Wrapper → Option β) (shouldRemove : β → Bool)
    (w : Wrapper) : Bool :=
  match cast w with
  | none => false
  | some v => shouldRemove v

/-! Dispatch lemmas: the call loop leaves the event component untouched,
its state component is independent of the event component, it distributes
over list append, and under the logging environment it records exactly the
stored wrappers in order, each with the argument it received. -/

lemma callLoop_fst {α σ : Type} (env : Semantics α σ) (a : α) :
    ∀ (l : List Wrapper) (es : Event × σ), (callLoop env a l es).1 = es.1 := by
  intro l
  induction l with
  | nil => intro es; rfl
  | cons w rest ih => intro es; exact ih (es.1, invokeWrapper env w a es.2)

lemma callLoop_snd_indep {α σ : Type} (env : Semantics α σ) (a : α) :
    ∀ (l : List Wrapper) (e1 e2 : Event) (s : σ),
      (callLoop env a l (e1, s)).2 = (callLoop env a l (e2, s)).2 := by
  intro l
  induction l with
  | nil => intro e1 e2 s; rfl
  | cons w rest ih => intro e1 e2 s; exact ih e1 e2 (invokeWrapper env w a s)

lemma callLoop_append {α σ : Type} (env : Semantics α σ) (a : α) :
    ∀ (l1 l2 : List Wrapper) (es : Event × σ),
      callLoop env a (l1 ++ l2) es = callLoop env a l2 (callLoop env a l1 es) := by
  intro l1
  induction l1 with
  | nil => intro l2 es; rfl
  | cons w rest ih => intro l2 es; exact ih l2 (es.1, invokeWrapper env w a es.2)

lemma invoke_mk_append {α σ : Type} (env : Semantics α σ) (a : α)
    (l1 l2 : List Wrapper) (s : σ) :
    (Event.mk (l1 ++ l2)).invoke env a s
      = (Event.mk l2).invoke env a ((Event.mk l1).invoke env a s) := by
  show (callLoop env a (l1 ++ l2) (Event.mk (l1 ++ l2), s)).2 = _
  rw [callLoop_append]
  have h1 : callLoop env a l1 (Event.mk (l1 ++ l2), s)
      = (Event.mk (l1 ++ l2), (callLoop env a l1 (Event.mk (l1 ++ l2), s)).2) := by
    have := callLoop_fst env a l1 (Event.mk (l1 ++ l2), s)
    exact Prod.ext this rfl
  rw [h1, callLoop_snd_indep env a l2 (Event.mk (l1 ++ l2)) (Event.mk l2),
    callLoop_snd_indep env a l1 (Event.mk (l1 ++ l2)) (Event.mk l1)]
  rfl

lemma invokeWrapper_log {α : Type} (w : Wrapper) (a : α) (s : List (CallId × α)) :
    invokeWrapper (logEnv α) w a s = s ++ [(w.callId, a)] := by
  cases w <;> rfl

lemma callLoop_log {α : Type} (a : α) :
    ∀ (l : List Wrapper) (e : Event) (s : List (CallId × α)),
      (callLoop (logEnv α) a l (e, s)).2 = s ++ l.map (fun w => (w.callId, a)) := by
  intro l
  induction l with
  | nil => intro e s; simp [callLoop]
  | cons w rest ih =>
    intro e s
    show (callLoop (logEnv α) a rest (e, invokeWrapper (logEnv α) w a s)).2 = _
    rw [invokeWrapper_log, ih]
    simp

lemma invoke_log {α : Type} (e : Event) (a : α) (s : List (CallId × α)) :
    e.invoke (logEnv α) a s = s ++ e.boundFunctions.map (fun w => (w.callId, a)) :=
  callLoop_log a e.boundFunctions e s

lemma bind_boundFunctions (e : Event) (w : Wrapper) :
    (e.bind w).boundFunctions = e.boundFunctions ++ [w] := by
  cases w <;> rfl

lemma bindAll_boundFunctions :
    ∀ (ws : List Wrapper) (e : Event),
      (bindAll e ws).boundFunctions = e.boundFunctions ++ ws := by
  intro ws
  induction ws with
  | nil => intro e; simp [bindAll]
  | cons w rest ih =>
    intro e
    show (bindAll (e.bind w) rest).boundFunctions = _
    rw [ih, bind_boundFunctions]
    simp

/-- C1: for every sequence of callbacks bound in order `c1..cN` (and, in
general, for every event), `operator()` executes exactly the
currently-registered callbacks, each exactly once, in registration
(insertion) order: under the logging environment the produced trace is the
map of the registration vector, in order. -/
theorem invoke_order_preservation {α : Type} (ws : List Wrapper) (a : α) (e : Event) :
    (bindAll (Event.mk []) ws).boundFunctions = ws
    ∧ (bindAll (Event.mk []) ws).invoke (logEnv α) a []
        = ws.map (fun w => (w.callId, a))
    ∧ e.invoke (logEnv α) a [] = e.boundFunctions.map (fun w => (w.callId, a)) := by
  have hb : (bindAll (Event.mk []) ws).boundFunctions = ws := by
    rw [bindAll_boundFunctions]; rfl
  refine ⟨hb, ?_, ?_⟩
  · rw [invoke_log, hb]; rfl
  · rw [invoke_log]; rfl

/-- C2: a single `operator()` call passes the same argument value to every
registered callback (every trace entry carries the argument `a`), and the
callback at any position runs on exactly the state produced by the
callbacks registered before it, its own effect flowing into the callbacks
after it — state is threaded through the dispatch with no snapshotting. -/
theorem invoke_same_args_no_snapshot {α σ : Type} (env : Semantics α σ)
    (l1 l2 : List Wrapper) (w : Wrapper) (a : α) (s : σ) (e : Event) :
    (e.invoke (logEnv α) a []).map Prod.snd = List.replicate e.boundFunctions.length a
    ∧ (Event.mk (l1 ++ w :: l2)).invoke env a s
        = (Event.mk l2).invoke env a (invokeWrapper env w a ((Event.mk l1).invoke env a s)) := by
  constructor
  · rw [invoke_log]
    simp [List.map_map, Function.comp_def, List.map_const']
  · have hw : w :: l2 = [w] ++ l2 := rfl
    rw [hw, invoke_mk_append env a l1 ([w] ++ l2) s,
      invoke_mk_append env a [w] l2]
    rfl

/-- C9: dispatch does not modify the registration state — provided no
callback re-enters the event (expressed by callbacks acting on the program
state `σ` only), `operator()` returns the event with the same callback
vector (count, order and identities) it started with. -/
theorem invoke_preserves_registrations {α σ : Type} (env : Semantics α σ)
    (e : Event) (a : α) (s : σ) :
    (e.call env a s).1 = e ∧ (e.call env a s).1.boundFunctions = e.boundFunctions := by
  have h : (e.call env a s).1 = e := callLoop_fst env a e.boundFunctions (e, s)
  exact ⟨h, by rw [h]⟩

/-- C6: `UnbindAll` removes every registered callback regardless of kind and
is idempotent; the destructor performs `UnbindAll`; after either, the event
has zero registered callbacks and a subsequent `operator()` call executes
nothing (the state is returned unchanged and the trace is empty). -/
theorem unbindAll_teardown {α σ : Type} (e : Event) (env : Semantics α σ)
    (a : α) (s : σ) :
    e.UnbindAll.boundFunctions = []
    ∧ e.UnbindAll.UnbindAll = e.UnbindAll
    ∧ e.destructor = e.UnbindAll
    ∧ e.UnbindAll.invoke env a s = s
    ∧ e.UnbindAll.invoke (logEnv α) a [] = [] :=
  ⟨rfl, rfl, rfl, rfl, rfl⟩

/-! Removal-loop lemmas: one loop iteration either erases the current index
(when the downcast and the condition both succeed) or leaves the vector
unchanged; the whole backward scan computes a filter of the vector whenever
the starting-index arithmetic does not wrap. -/

lemma stepRemove_oob {β : Type} (cast : Wrapper → Option β) (sr : β → Bool)
    (l : List Wrapper) (i : Nat) (h : l.length ≤ i) :
    stepRemove cast sr l i = l := by
  unfold stepRemove
  rw [List.getElem?_eq_none h]

lemma stepRemove_in {β : Type} (cast : Wrapper → Option β) (sr : β → Bool)
    (l : List Wrapper) (i : Nat) (h : i < l.length) :
    stepRemove cast sr l i
      = if matchesRemoval cast sr l[i] then l.eraseIdx i else l := by
  unfold stepRemove
  rw [List.getElem?_eq_getElem h]
  rcases hc : cast l[i] with _ | v <;> simp [matchesRemoval, hc]

lemma stepRemove_no_match {β : Type} (cast : Wrapper → Option β) (sr : β → Bool)
    (l : List Wrapper) (i : Nat)
    (hm : ∀ w ∈ l, matchesRemoval cast sr w = false) :
    stepRemove cast sr l i = l := by
  by_cases h : i < l.length
  · rw [stepRemove_in cast sr l i h, hm l[i] (List.getElem_mem h)]
    simp
  · exact stepRemove_oob cast sr l i (Nat.le_of_not_lt h)

lemma removeFrom_no_match {β : Type} (cast : Wrapper → Option β) (sr : β → Bool)
    (l : List Wrapper) (hm : ∀ w ∈ l, matchesRemoval cast sr w = false) :
    ∀ i, removeFrom cast sr l i = l := by
  intro i
  induction i with
  | zero => exact stepRemove_no_match cast sr l 0 hm
  | succ i ih =>
    show removeFrom cast sr (stepRemove cast sr l (i + 1)) i = l
    rw [stepRemove_no_match cast sr l (i + 1) hm]
    exact ih

lemma removeFrom_spec {β : Type} (cast : Wrapper → Option β) (sr : β → Bool) :
    ∀ (i : Nat) (l : List Wrapper), i < l.length →
      removeFrom cast sr l i
        = (l.take (i + 1)).filter (fun w => !(matchesRemoval cast sr w))
            ++ l.drop (i + 1) := by
  intro i
  induction i with
  | zero =>
    intro l h
    have h1 : l.take 1 = [l[0]] := by
      rw [List.take_succ, List.getElem?_eq_getElem h]
      rfl
    have hd : l = l[0] :: l.drop 1 := by
      conv_lhs => rw [show l = l.drop 0 from rfl]
      exact List.drop_eq_getElem_cons h
    show stepRemove cast sr l 0 = _
    rw [stepRemove_in cast sr l 0 h, h1]
    by_cases hm : matchesRemoval cast sr l[0] = true
    · rw [if_pos hm, List.eraseIdx_eq_take_drop_succ]
      simp [hm]
    · rw [if_neg hm]
      rw [Bool.not_eq_true] at hm
      conv_lhs => rw [hd]
      simp [hm]
  | succ i ih =>
    intro l h
    have hts : l.take (i + 2) = l.take (i + 1) ++ [l[i + 1]] := by
      rw [List.take_succ, List.getElem?_eq_getElem h]
      rfl
    show removeFrom cast sr (stepRemove cast sr l (i + 1)) i = _
    rw [stepRemove_in cast sr l (i + 1) h]
    by_cases hm : matchesRemoval cast sr l[i + 1] = true
    · rw [if_pos hm]
      have hlen : i < (l.eraseIdx (i + 1)).length := by
        rw [List.length_eraseIdx_of_lt h]
        omega
      rw [ih _ hlen]
      have hE : l.eraseIdx (i + 1) = l.take (i + 1) ++ l.drop (i + 2) :=
        List.eraseIdx_eq_take_drop_succ l (i + 1)
      have hlt : (l.take (i + 1)).length = i + 1 := by
        rw [List.length_take]
        omega
      have ht : (l.eraseIdx (i + 1)).take (i + 1) = l.take (i + 1) := by
        rw [hE]
        exact List.take_left' hlt
      have hd2 : (l.eraseIdx (i + 1)).drop (i + 1) = l.drop (i + 2) := by
        rw [hE]
        exact List.drop_left' hlt
      rw [ht, hd2, hts, List.filter_append]
      simp [hm]
    · rw [if_neg hm]
      rw [Bool.not_eq_true] at hm
      have hlt : i < l.length := by omega
      rw [ih _ hlt, hts, List.filter_append]
      have hd : l.drop (i + 1) = l[i + 1] :: l.drop (i + 2) :=
        List.drop_eq_getElem_cons h
      rw [hd]
      simp [hm]

lemma startIndex_zero : startIndex 0 = -1 := by
  unfold startIndex int32ofNat
  decide

lemma startIndex_succ (n : Nat) (h : n < 2147483648) : startIndex (n + 1) = (n : Int) := by
  unfold startIndex int32ofNat
  have h1 : (n + 1 + 18446744073709551615) % 18446744073709551616 = n := by omega
  have h2 : n % 4294967296 = n := Nat.mod_eq_of_lt (by omega)
  rw [h1, h2, if_pos h]

lemma UnbindFunction_nil {β : Type} (cast : Wrapper → Option β) (sr : β → Bool) :
    UnbindFunction cast sr [] = [] := by
  unfold UnbindFunction
  rw [if_pos]
  rw [List.length_nil, startIndex_zero]
  decide

lemma UnbindFunction_eq_filter {β : Type} (cast : Wrapper → Option β) (sr : β → Bool)
    (l : List Wrapper) (h : l.length ≤ 2147483648) :
    UnbindFunction cast sr l = l.filter (fun w => !(matchesRemoval cast sr w)) := by
  cases l with
  | nil => exact UnbindFunction_nil cast sr
  | cons w t =>
    have hs : startIndex (w :: t).length = (t.length : Int) := by
      rw [List.length_cons]
      exact startIndex_succ t.length (by simp at h; omega)
    unfold UnbindFunction
    rw [hs, if_neg (by exact not_lt.mpr (Int.natCast_nonneg t.length)), Int.toNat_natCast]
    have hlt : t.length < (w :: t).length := by simp
    rw [removeFrom_spec cast sr t.length (w :: t) hlt]
    rw [List.take_of_length_le (by simp), List.drop_eq_nil_of_le (by simp)]
    simp

lemma UnbindFunction_no_match {β : Type} (cast : Wrapper → Option β) (sr : β → Bool)
    (l : List Wrapper) (hm : ∀ w ∈ l, matchesRemoval cast sr w = false) :
    UnbindFunction cast sr l = l := by
  unfold UnbindFunction
  split
  · rfl
  · exact removeFrom_no_match cast sr l hm _

/-- C5: calling an `Unbind` overload with a function identity (and receiver,
for the method overloads) that matches no currently-registered callback
leaves `boundFunctions` exactly unchanged (and the code has no failure
path: the removal engine is total).  Stated for the removal engine under an
arbitrary downcast kind and condition, and specialised to the
free-function and const-member overloads. -/
theorem unbind_no_match_noop {β : Type} (cast : Wrapper → Option β) (sr : β → Bool)
    (l : List Wrapper) (e : Event) (f m : Nat) (c : Obj)
    (h1 : ∀ w ∈ l, matchesRemoval cast sr w = false)
    (h2 : ∀ w ∈ e.boundFunctions,
      matchesRemoval dynamicCastGlobal (fun g => IsFunction g f) w = false)
    (h3 : ∀ w ∈ e.boundFunctions,
      matchesRemoval dynamicCastConstMember
        (fun fc => IsFunctionFromCaller fc.1 fc.2 m c) w = false) :
    UnbindFunction cast sr l = l
    ∧ e.UnbindGlobal f = e
    ∧ e.UnbindConstMember m c = e := by
  refine ⟨UnbindFunction_no_match cast sr l h1, ?_, ?_⟩
  · show Event.mk (UnbindFunction _ _ e.boundFunctions) = e
    rw [UnbindFunction_no_match _ _ _ h2]
  · show Event.mk (UnbindFunction _ _ e.boundFunctions) = e
    rw [UnbindFunction_no_match _ _ _ h3]

theorem unbind_no_match_noop_witness :
    (∀ w ∈ [Wrapper.global 3, Wrapper.constMember 2 7],
      matchesRemoval dynamicCastGlobal (fun g => IsFunction g 5) w = false)
    ∧ (∀ w ∈ (Event.mk [Wrapper.global 3, Wrapper.constMember 2 7]).boundFunctions,
      matchesRemoval dynamicCastGlobal (fun g => IsFunction g 5) w = false)
    ∧ (∀ w ∈ (Event.mk [Wrapper.global 3, Wrapper.constMember 2 7]).boundFunctions,
      matchesRemoval dynamicCastConstMember
        (fun fc => IsFunctionFromCaller fc.1 fc.2 2 ⟨9, 0⟩) w = false)
    ∧ (UnbindFunction dynamicCastGlobal (fun g => IsFunction g 5)
        [Wrapper.global 3, Wrapper.constMember 2 7]
        = [Wrapper.global 3, Wrapper.constMember 2 7]
      ∧ (Event.mk [Wrapper.global 3, Wrapper.constMember 2 7]).UnbindGlobal 5
        = Event.mk [Wrapper.global 3, Wrapper.constMember 2 7]
      ∧ (Event.mk [Wrapper.global 3, Wrapper.constMember 2 7]).UnbindConstMember 2 ⟨9, 0⟩
        = Event.mk [Wrapper.global 3, Wrapper.constMember 2 7]) :=
  ⟨by decide, by decide, by decide,
    unbind_no_match_noop dynamicCastGlobal (fun g => IsFunction g 5)
      [Wrapper.global 3, Wrapper.constMember 2 7]
      (Event.mk [Wrapper.global 3, Wrapper.constMember 2 7]) 5 2 ⟨9, 0⟩
      (by decide) (by decide) (by decide)⟩

/-- C10: every `Unbind` overload run on an event with zero registered
callbacks terminates and leaves the event unchanged: the loop's starting
index, the unsigned size minus one converted to a signed 32-bit `int`, is
`-1`, which fails the loop condition `i >= 0` immediately, so the loop body
never executes.  Stated for the removal engine under an arbitrary downcast
kind and condition, and for each overload. -/
theorem unbind_empty_noop {β : Type} (cast : Wrapper → Option β) (sr : β → Bool)
    (f m : Nat) (c : Obj) :
    startIndex 0 = -1
    ∧ startIndex (List.length ([] : List Wrapper)) < 0
    ∧ UnbindFunction cast sr [] = []
    ∧ (Event.mk []).UnbindGlobal f = Event.mk []
    ∧ (Event.mk []).UnbindConstMember m c = Event.mk []
    ∧ (Event.mk []).UnbindMember m c = Event.mk [] := by
  refine ⟨startIndex_zero, by rw [List.length_nil, startIndex_zero]; decide,
    UnbindFunction_nil cast sr, ?_, ?_, ?_⟩
  · show Event.mk (UnbindFunction _ _ []) = Event.mk []
    rw [UnbindFunction_nil]
  · show Event.mk (UnbindFunction _ _ []) = Event.mk []
    rw [UnbindFunction_nil]
  · show Event.mk (UnbindFunction _ _ []) = Event.mk []
    rw [UnbindFunction_nil]

/-- C8 (amended): provided the event holds at most `2 ^ 31` registered
callbacks, each `Unbind` overload removes exactly the elements whose
wrapper kind matches the overload (the capability-checked downcast
succeeds) and whose identity condition holds, every other callback staying
in its original relative order — the backward scan considers each element
exactly once, so the result is a filter of the vector.  Stated for the
removal engine under an arbitrary downcast kind and condition, and
specialised to the free-function and const-member overloads. -/
theorem unbind_removes_exactly_matches {β : Type} (cast : Wrapper → Option β)
    (sr : β → Bool) (l : List Wrapper) (e : Event) (f m : Nat) (c : Obj)
    (h : l.length ≤ 2147483648) (he : e.boundFunctions.length ≤ 2147483648) :
    UnbindFunction cast sr l = l.filter (fun w => !(matchesRemoval cast sr w))
    ∧ (e.UnbindGlobal f).boundFunctions
        = e.boundFunctions.filter
            (fun w => !(matchesRemoval dynamicCastGlobal (fun g => IsFunction g f) w))
    ∧ (e.UnbindConstMember m c).boundFunctions
        = e.boundFunctions.filter
            (fun w => !(matchesRemoval dynamicCastConstMember
              (fun fc => IsFunctionFromCaller fc.1 fc.2 m c) w)) :=
  ⟨UnbindFunction_eq_filter cast sr l h,
    UnbindFunction_eq_filter _ _ e.boundFunctions he,
    UnbindFunction_eq_filter _ _ e.boundFunctions he⟩

theorem unbind_removes_exactly_matches_witness :
    ([Wrapper.global 5, Wrapper.constMember 5 1, Wrapper.global 5].length ≤ 2147483648)
    ∧ ((Event.mk [Wrapper.global 5, Wrapper.constMember 5 1, Wrapper.global 5]).boundFunctions.length
        ≤ 2147483648)
    ∧ (UnbindFunction dynamicCastGlobal (fun g => IsFunction g 5)
        [Wrapper.global 5, Wrapper.constMember 5 1, Wrapper.global 5]
        = [Wrapper.global 5, Wrapper.constMember 5 1, Wrapper.global 5].filter
            (fun w => !(matchesRemoval dynamicCastGlobal (fun g => IsFunction g 5) w))
      ∧ ((Event.mk [Wrapper.global 5, Wrapper.constMember 5 1, Wrapper.global 5]).UnbindGlobal 5).boundFunctions
        = (Event.mk [Wrapper.global 5, Wrapper.constMember 5 1, Wrapper.global 5]).boundFunctions.filter
            (fun w => !(matchesRemoval dynamicCastGlobal (fun g => IsFunction g 5) w))
      ∧ ((Event.mk [Wrapper.global 5, Wrapper.constMember 5 1, Wrapper.global 5]).UnbindConstMember 5 ⟨1, 0⟩).boundFunctions
        = (Event.mk [Wrapper.global 5, Wrapper.constMember 5 1, Wrapper.global 5]).boundFunctions.filter
            (fun w => !(matchesRemoval dynamicCastConstMember
              (fun fc => IsFunctionFromCaller fc.1 fc.2 5 ⟨1, 0⟩) w))) :=
  ⟨by decide, by decide,
    unbind_removes_exactly_matches dynamicCastGlobal (fun g => IsFunction g 5)
      [Wrapper.global 5, Wrapper.constMember 5 1, Wrapper.global 5]
      (Event.mk [Wrapper.global 5, Wrapper.constMember 5 1, Wrapper.global 5])
      5 5 ⟨1, 0⟩ (by decide) (by decide)⟩

/-- C8 counterexample: an event holding `2 ^ 31 + 1` free-function callbacks,
every one of them matching the `Unbind(funcPtr)` argument.  The starting
index `int i = boundFunctions.size() - 1` wraps to the negative 32-bit
value `-2 ^ 31`, the loop condition fails immediately and the scan
considers no element at all: `Unbind` removes nothing, refuting the claim
that each matching element is removed (and each element considered exactly
once) at this input. -/
theorem unbind_scan_wraps_counterexample :
    (Event.mk (List.replicate 2147483649 (Wrapper.global 0))).UnbindGlobal 0
      = Event.mk (List.replicate 2147483649 (Wrapper.global 0))
    ∧ matchesRemoval dynamicCastGlobal (fun g => IsFunction g 0) (Wrapper.global 0) = true
    ∧ (List.replicate 2147483649 (Wrapper.global 0)).length = 2147483649
    ∧ startIndex 2147483649 = -2147483648 := by
  have hs : startIndex 2147483649 = -2147483648 := by
    unfold startIndex int32ofNat
    decide
  refine ⟨?_, by decide, List.length_replicate 2147483649 (Wrapper.global 0), hs⟩
  show Event.mk (UnbindFunction dynamicCastGlobal (fun g => IsFunction g 0)
    (List.replicate 2147483649 (Wrapper.global 0))) = _
  congr 1
  unfold UnbindFunction
  rw [List.length_replicate, if_pos (by rw [hs]; decide)]

/-- C3: `Bind` performs no duplicate detection — binding the same free
function twice stores two registrations and one dispatch executes it
exactly twice; a single `Unbind` call afterwards removes every matching
registration, so a subsequent dispatch executes it zero times. -/
theorem bind_twice_unbind_once {α : Type} (f : Nat) (a : α) :
    (((Event.mk []).BindGlobal f).BindGlobal f).boundFunctions
      = [Wrapper.global f, Wrapper.global f]
    ∧ ((((Event.mk []).BindGlobal f).BindGlobal f).invoke (logEnv α) a []).countP
        (fun r => r.1 == CallId.global f) = 2
    ∧ ((((Event.mk []).BindGlobal f).BindGlobal f).UnbindGlobal f).boundFunctions = []
    ∧ (((((Event.mk []).BindGlobal f).BindGlobal f).UnbindGlobal f).invoke
        (logEnv α) a []).countP (fun r => r.1 == CallId.global f) = 0 := by
  have hb : (((Event.mk []).BindGlobal f).BindGlobal f).boundFunctions
      = [Wrapper.global f, Wrapper.global f] := rfl
  have hu : ((((Event.mk []).BindGlobal f).BindGlobal f).UnbindGlobal f).boundFunctions
      = [] := by
    show UnbindFunction dynamicCastGlobal (fun g => IsFunction g f)
      [Wrapper.global f, Wrapper.global f] = []
    rw [UnbindFunction_eq_filter _ _ _ (by simp)]
    simp [matchesRemoval, dynamicCastGlobal, IsFunction]
  refine ⟨hb, ?_, hu, ?_⟩
  · rw [invoke_log, hb]
    simp [Wrapper.callId, List.countP_cons]
  · rw [invoke_log, hu]
    rfl

/-- C7: receiver equality is identity (same object, i.e. same address),
never value equality: `IsCaller` rejects a distinct receiver instance even
when its field values are identical, the same method bound to two such
receivers yields two different registrations, and unbinding
`(method, receiver1)` leaves the callback bound to `receiver2` in place. -/
theorem receiver_identity_not_value (m : Nat) (r1 r2 : Obj)
    (hfields : r1.fields = r2.fields) (haddr : r1.addr ≠ r2.addr) :
    IsCaller r1.addr r2 = false
    ∧ Wrapper.constMember m r1.addr ≠ Wrapper.constMember m r2.addr
    ∧ (((Event.mk []).BindConstMember m r1).BindConstMember m r2).boundFunctions
        = [Wrapper.constMember m r1.addr, Wrapper.constMember m r2.addr]
    ∧ ((((Event.mk []).BindConstMember m r1).BindConstMember m r2).UnbindConstMember
        m r1).boundFunctions = [Wrapper.constMember m r2.addr] := by
  have haddr2 : r2.addr ≠ r1.addr := fun hh => haddr hh.symm
  have hb1 : (r2.addr == r1.addr) = false := beq_eq_false_iff_ne.mpr haddr2
  have hb2 : (r1.addr == r2.addr) = false := beq_eq_false_iff_ne.mpr haddr
  refine ⟨?_, by simp [haddr], rfl, ?_⟩
  · unfold IsCaller
    exact hb2
  · show UnbindFunction dynamicCastConstMember
      (fun fc => IsFunctionFromCaller fc.1 fc.2 m r1)
      [Wrapper.constMember m r1.addr, Wrapper.constMember m r2.addr]
      = [Wrapper.constMember m r2.addr]
    rw [UnbindFunction_eq_filter _ _ _ (by simp)]
    simp [matchesRemoval, dynamicCastConstMember, IsFunctionFromCaller,
      IsFunction, IsCaller, hb1]

theorem receiver_identity_not_value_witness :
    ((⟨1, 42⟩ : Obj).fields = (⟨2, 42⟩ : Obj).fields)
    ∧ ((⟨1, 42⟩ : Obj).addr ≠ (⟨2, 42⟩ : Obj).addr)
    ∧ (IsCaller (⟨1, 42⟩ : Obj).addr ⟨2, 42⟩ = false
      ∧ Wrapper.constMember 7 (⟨1, 42⟩ : Obj).addr
          ≠ Wrapper.constMember 7 (⟨2, 42⟩ : Obj).addr
      ∧ (((Event.mk []).BindConstMember 7 ⟨1, 42⟩).BindConstMember 7 ⟨2, 42⟩).boundFunctions
          = [Wrapper.constMember 7 (⟨1, 42⟩ : Obj).addr,
             Wrapper.constMember 7 (⟨2, 42⟩ : Obj).addr]
      ∧ ((((Event.mk []).BindConstMember 7 ⟨1, 42⟩).BindConstMember 7 ⟨2, 42⟩).UnbindConstMember
          7 ⟨1, 42⟩).boundFunctions = [Wrapper.constMember 7 (⟨2, 42⟩ : Obj).addr]) :=
  ⟨rfl, by decide, receiver_identity_not_value 7 ⟨1, 42⟩ ⟨2, 42⟩ rfl (by decide)⟩

/-- C4: intended semantics of the member `Unbind` overloads, with the
missing `IsFunctionFromCaller` condition (and, for the mutable overload,
the whole removal call) modelled from the spec — as written in `src/` both
overloads are ill-formed when instantiated (see `Event.UnbindMember` and
`IsFunctionFromCaller`).  Each overload removes exactly the registered
method callbacks of its own kind whose stored method pointer equals the
argument by identity and whose stored receiver is the same object, leaving
everything else in place (hence a silent no-op when none match). -/
theorem member_unbind_matches_identity (m : Nat) (c : Obj) (e : Event)
    (h : e.boundFunctions.length ≤ 2147483648) :
    (e.UnbindMember m c).boundFunctions
      = e.boundFunctions.filter
          (fun w => !(matchesRemoval dynamicCastRegularMember
            (fun fc => IsFunctionFromCaller fc.1 fc.2 m c) w))
    ∧ (e.UnbindConstMember m c).boundFunctions
      = e.boundFunctions.filter
          (fun w => !(matchesRemoval dynamicCastConstMember
            (fun fc => IsFunctionFromCaller fc.1 fc.2 m c) w)) :=
  ⟨UnbindFunction_eq_filter _ _ e.boundFunctions h,
    UnbindFunction_eq_filter _ _ e.boundFunctions h⟩

theorem member_unbind_matches_identity_witness :
    ((Event.mk [Wrapper.regularMember 3 1, Wrapper.global 3,
        Wrapper.regularMember 3 2]).boundFunctions.length ≤ 2147483648)
    ∧ (((Event.mk [Wrapper.regularMember 3 1, Wrapper.global 3,
          Wrapper.regularMember 3 2]).UnbindMember 3 ⟨1, 0⟩).boundFunctions
        = (Event.mk [Wrapper.regularMember 3 1, Wrapper.global 3,
            Wrapper.regularMember 3 2]).boundFunctions.filter
            (fun w => !(matchesRemoval dynamicCastRegularMember
              (fun fc => IsFunctionFromCaller fc.1 fc.2 3 ⟨1, 0⟩) w))
      ∧ ((Event.mk [Wrapper.regularMember 3 1, Wrapper.global 3,
            Wrapper.regularMember 3 2]).UnbindConstMember 3 ⟨1, 0⟩).boundFunctions
        = (Event.mk [Wrapper.regularMember 3 1, Wrapper.global 3,
            Wrapper.regularMember 3 2]).boundFunctions.filter
            (fun w => !(matchesRemoval dynamicCastConstMember
              (fun fc => IsFunctionFromCaller fc.1 fc.2 3 ⟨1, 0⟩) w))) :=
  ⟨by decide,
    member_unbind_matches_identity 3 ⟨1, 0⟩
      (Event.mk [Wrapper.regularMember 3 1, Wrapper.global 3,
        Wrapper.regularMember 3 2]) (by decide)⟩

end Events
